import Mathlib

/-!
Verification of the Chip_Atlasmcp pipeline (src/Chip_Atlasmcp/Chip_Atlasmcp.py).

The development shallowly embeds the pure content of the pipeline:
the metadata catalog and `ensure_metadata_file` (with the filesystem and the
network abstracted as oracle parameters, and the performed side effects
reified as an explicit effect list), `load_metadata` (with `pandas.read_csv`
abstracted as a read oracle, and the Python try/except structure of the
function embedded explicitly, including the fact that an exception raised
inside an `except` handler is not caught by a sibling handler),
the column-detection and keyword-filter logic of `fetch_and_display`
(with the `df[col]` selection embedded including its error paths — a
`KeyError` on an absent label and an `AttributeError` from the `.str`
accessor on a duplicated label — and the
`str.contains(keyword, case=False, na=False)` call embedded via a
small model of Python regular expressions: `re` compilation of the fragment
consisting of literal characters, `.`, `|`, `*`, `+`, `?` and groups, with
the remaining metacharacters conservatively rejected, and matching by
Brzozowski derivatives with `re.IGNORECASE` character comparison),
`save_full_dataset`, and the CSV write/parse round trip of the persister
(unquoted fields, trailing newline, blank lines skipped, the reload
delimiter sniffed from the header line as `csv.Sniffer` does — first
preferred delimiter present, else the most frequent header character —
with the loader single-column comma retry, and fields in the default NA
set of the reader parsed as missing values).
-/

namespace ChipAtlas

/-! ## String helpers (Python `str.strip`, `str.lower`, substring test) -/

/-- The six ASCII whitespace characters stripped by Python `str.strip()`. -/
def isPySpace (c : Char) : Bool :=
  c == ' ' || c == '\t' || c == '\n' || c == '\r' || c == '\x0b' || c == '\x0c'

/-- Remove trailing characters satisfying `p` (helper for `stripStr`). -/
def dropTrail (p : Char → Bool) (l : List Char) : List Char :=
  (l.reverse.dropWhile p).reverse

/-- Python `s.strip()`: remove leading and trailing whitespace. -/
def stripStr (s : String) : String :=
  String.mk (dropTrail isPySpace (s.data.dropWhile isPySpace))

/-- Python `s.lower()` (ASCII fragment, as used on the column names here). -/
def lowerStr (s : String) : String :=
  String.mk (s.data.map Char.toLower)

/-- Python `a in b` on lists of characters: `startsSeg n h` tests whether
`n` is an initial segment of `h`. -/
def startsSeg : List Char → List Char → Bool
  | [], _ => true
  | _ :: _, [] => false
  | a :: as, b :: bs => (a == b) && startsSeg as bs

/-- Python `a in b` (substring containment) on lists of characters. -/
def containsSeg (n : List Char) : List Char → Bool
  | [] => n.isEmpty
  | h :: t => startsSeg n (h :: t) || containsSeg n t

lemma dropWhile_dropWhile_self (p : Char → Bool) (l : List Char) :
    (l.dropWhile p).dropWhile p = l.dropWhile p := by
  induction l with
  | nil => rfl
  | cons a t ih =>
    by_cases h : p a
    · simp [List.dropWhile_cons, h, ih]
    · simp [List.dropWhile_cons, h]

lemma dropTrail_dropTrail_self (p : Char → Bool) (l : List Char) :
    dropTrail p (dropTrail p l) = dropTrail p l := by
  unfold dropTrail
  rw [List.reverse_reverse, dropWhile_dropWhile_self]

lemma dropWhile_eq_append (p : Char → Bool) (l : List Char) :
    ∃ l1, l = l1 ++ l.dropWhile p :=
  ⟨l.takeWhile p, (List.takeWhile_append_dropWhile p l).symm⟩

/-- Applying `dropTrail` to a nonempty list gives the empty list or keeps the head. -/
lemma dropTrail_cons_shape (p : Char → Bool) (a : Char) (t : List Char) :
    dropTrail p (a :: t) = [] ∨ ∃ t2, dropTrail p (a :: t) = a :: t2 := by
  obtain ⟨l1, hl1⟩ := dropWhile_eq_append p (a :: t).reverse
  unfold dropTrail
  rcases hD : ((a :: t).reverse.dropWhile p).reverse with _ | ⟨b, t2⟩
  · exact Or.inl rfl
  · right
    refine ⟨t2, ?_⟩
    have h2 : (a :: t).reverse.dropWhile p = (b :: t2).reverse := by
      rw [← hD, List.reverse_reverse]
    rw [h2] at hl1
    have h3 : a :: t = (b :: t2) ++ l1.reverse := by
      have := congrArg List.reverse hl1
      simpa using this
    have hb : a = b := by
      have := congrArg (fun l => l.headI) h3
      simpa using this
    rw [hb]

lemma dropWhile_dropTrail (p : Char → Bool) (l : List Char)
    (h : l.dropWhile p = l) : (dropTrail p l).dropWhile p = dropTrail p l := by
  cases l with
  | nil => rfl
  | cons a t =>
    have hpa : p a = false := by
      by_cases hp : p a
      · exfalso
        rw [List.dropWhile_cons, if_pos hp] at h
        have hle := (List.dropWhile_sublist (l := t) p).length_le
        have := congrArg List.length h
        simp at this
        omega
      · simpa using hp
    rcases dropTrail_cons_shape p a t with h0 | ⟨t2, h2⟩
    · rw [h0]; rfl
    · rw [h2, List.dropWhile_cons, hpa]
      simp

lemma data_mk (l : List Char) : (String.mk l).data = l := rfl

/-- Stripping is idempotent: `s.strip().strip() = s.strip()`. -/
lemma stripStr_idem (s : String) : stripStr (stripStr s) = stripStr s := by
  have h1 : (dropTrail isPySpace (s.data.dropWhile isPySpace)).dropWhile isPySpace
      = dropTrail isPySpace (s.data.dropWhile isPySpace) :=
    dropWhile_dropTrail isPySpace _ (dropWhile_dropWhile_self _ _)
  unfold stripStr
  rw [data_mk, h1]
  rw [dropTrail_dropTrail_self]

/-! ## Catalog and `ensure_metadata_file` (Chip_Atlasmcp.py lines 28-102)

The filesystem is abstracted as a predicate on paths; the network download
plus archive extraction is abstracted as `Option` of the post-extraction
filesystem (`none` models any download or extraction error, which the
source catches and turns into `None`).  The side effects performed by the
call are reified in an explicit trace. -/

/-- One entry of `METADATA_SPECS`. -/
structure MetadataSpec where
  filename : String
  url : String
  unzipped_files : List String
deriving DecidableEq, Repr

def experimentSpec : MetadataSpec :=
  { filename := "chip_atlas_experiment_list.zip"
    url := "https://dbarchive.biosciencedbc.jp/data/chip-atlas/LATEST/chip_atlas_experiment_list.zip"
    unzipped_files := ["chip_atlas_experiment_list.tsv", "chip_atlas_experiment_list.csv"] }

def fileSpec : MetadataSpec :=
  { filename := "chip_atlas_file_list.zip"
    url := "https://dbarchive.biosciencedbc.jp/data/chip-atlas/LATEST/chip_atlas_file_list.zip"
    unzipped_files := ["chip_atlas_file_list.tsv", "chip_atlas_file_list.csv"] }

def analysisSpec : MetadataSpec :=
  { filename := "chip_atlas_analysis_list.zip"
    url := "https://dbarchive.biosciencedbc.jp/data/chip-atlas/LATEST/chip_atlas_analysis_list.zip"
    unzipped_files := ["chip_atlas_analysis_list.tsv", "chip_atlas_analysis_list.csv"] }

def antigenSpec : MetadataSpec :=
  { filename := "chip_atlas_antigen_list.zip"
    url := "https://dbarchive.biosciencedbc.jp/data/chip-atlas/LATEST/chip_atlas_antigen_list.zip"
    unzipped_files := ["chip_atlas_antigen_list.tsv", "chip_atlas_antigen_list.csv"] }

def celltypeSpec : MetadataSpec :=
  { filename := "chip_atlas_celltype_list.zip"
    url := "https://dbarchive.biosciencedbc.jp/data/chip-atlas/LATEST/chip_atlas_celltype_list.zip"
    unzipped_files := ["chip_atlas_celltype_list.tsv", "chip_atlas_celltype_list.csv"] }

/-- The `METADATA_SPECS` dictionary (insertion order preserved). -/
def METADATA_SPECS : List (String × MetadataSpec) :=
  [("experiment_list", experimentSpec),
   ("file_list", fileSpec),
   ("analysis_list", analysisSpec),
   ("antigen_list", antigenSpec),
   ("celltype_list", celltypeSpec)]

/-- The base directory `os.path.expanduser("~/Chip_Atlasmcp")`; kept symbolic. -/
def base_dir : String := "~/Chip_Atlasmcp"

/-- Path join, `os.path.join` for the flat paths used here. -/
def joinPath (a b : String) : String := a ++ "/" ++ b

/-- Side effects that `ensure_metadata_file` can perform (console output
is not modelled). -/
inductive FetchEffect where
  | mkdirBase
  | netGet (url : String)
  | extractTo (dir : String)
deriving DecidableEq, Repr

/-- Embeds `ensure_metadata_file(metadata_type, silent)`:
unknown type check, `os.makedirs`, candidate scan, download plus
extraction (`net = none` models a caught download/extraction error,
`net = some fs2` the post-extraction filesystem), and the re-scan.
Returns the result, the effect trace, and the filesystem after the call. -/
def ensure_metadata_file (metadata_type : String) (fsHas : String → Bool)
    (net : Option (String → Bool)) :
    Option String × List FetchEffect × (String → Bool) :=
  match METADATA_SPECS.find? (fun p => p.fst == metadata_type) with
  | none => (none, [], fsHas)
  | some entry =>
    match entry.snd.unzipped_files.find? (fun f => fsHas (joinPath base_dir f)) with
    | some f => (some (joinPath base_dir f), [FetchEffect.mkdirBase], fsHas)
    | none =>
      match net with
      | none => (none, [FetchEffect.mkdirBase, FetchEffect.netGet entry.snd.url], fsHas)
      | some fs2 =>
        match entry.snd.unzipped_files.find? (fun f => fs2 (joinPath base_dir f)) with
        | some f =>
          (some (joinPath base_dir f),
           [FetchEffect.mkdirBase, FetchEffect.netGet entry.snd.url,
            FetchEffect.extractTo base_dir], fs2)
        | none =>
          (none,
           [FetchEffect.mkdirBase, FetchEffect.netGet entry.snd.url,
            FetchEffect.extractTo base_dir], fs2)

/-- C5: an unknown metadata type returns `None` before any directory
creation, network request, or extraction: the effect trace is empty and
the filesystem is untouched. -/
theorem ensure_unknown_type_no_network (metadata_type : String)
    (h : ∀ p ∈ METADATA_SPECS, p.fst ≠ metadata_type)
    (fsHas : String → Bool) (net : Option (String → Bool)) :
    ensure_metadata_file metadata_type fsHas net = (none, [], fsHas) := by
  have hf : METADATA_SPECS.find? (fun p => p.fst == metadata_type) = none := by
    rw [List.find?_eq_none]
    intro p hp
    simpa using h p hp
  unfold ensure_metadata_file
  rw [hf]

/-- Witness for `ensure_unknown_type_no_network` at the concrete input
`"invalid_type"` used by the repository test suite. -/
theorem ensure_unknown_type_no_network_witness :
    ensure_metadata_file "invalid_type" (fun _ => false) none
      = (none, [], (fun _ => false)) :=
  ensure_unknown_type_no_network "invalid_type" (by decide)
    (fun _ => false) none

/-- C6: idempotence of `ensure_metadata_file`.  First, when a candidate
file already exists, the call returns its path and performs no network
request (the trace is exactly the `os.makedirs` call).  Second, after any
successful call, a repeat call on the resulting filesystem returns the
same path with no network request. -/
theorem ensure_idempotent (metadata_type : String) (fsHas : String → Bool)
    (net : Option (String → Bool)) :
    (∀ entry ∈ METADATA_SPECS,
      METADATA_SPECS.find? (fun p => p.fst == metadata_type) = some entry →
      ∀ f, entry.snd.unzipped_files.find? (fun g => fsHas (joinPath base_dir g)) = some f →
      ensure_metadata_file metadata_type fsHas net
        = (some (joinPath base_dir f), [FetchEffect.mkdirBase], fsHas))
  ∧ (∀ p effs fs2, ensure_metadata_file metadata_type fsHas net = (some p, effs, fs2) →
      ∀ net2, ensure_metadata_file metadata_type fs2 net2
        = (some p, [FetchEffect.mkdirBase], fs2)) := by
  constructor
  · intro entry _ hfind f hcand
    simp only [ensure_metadata_file, hfind, hcand]
  · intro p effs fs2 hcall net2
    unfold ensure_metadata_file at hcall
    split at hcall
    · simp at hcall
    · rename_i entry hfind
      split at hcall
      · rename_i f hcand
        injection hcall with h1 hrest
        injection hrest with h2 h3
        injection h1 with h1
        subst h3
        subst h1
        simp only [ensure_metadata_file, hfind, hcand]
      · rename_i hcand
        split at hcall
        · simp at hcall
        · rename_i fsN
          split at hcall
          · rename_i f2 hcand2
            injection hcall with h1 hrest
            injection hrest with h2 h3
            injection h1 with h1
            subst h3
            subst h1
            simp only [ensure_metadata_file, hfind, hcand2]
          · simp at hcall

/-- Witness for `ensure_idempotent`: the cached experiment-list file is
returned without a network request. -/
theorem ensure_idempotent_witness :
    ensure_metadata_file "experiment_list"
      (fun p => p == joinPath base_dir "chip_atlas_experiment_list.tsv") none
      = (some (joinPath base_dir "chip_atlas_experiment_list.tsv"),
         [FetchEffect.mkdirBase],
         (fun p => p == joinPath base_dir "chip_atlas_experiment_list.tsv")) :=
  (ensure_idempotent "experiment_list"
      (fun p => p == joinPath base_dir "chip_atlas_experiment_list.tsv") none).1
    ("experiment_list", experimentSpec) (by decide) rfl
    "chip_atlas_experiment_list.tsv" rfl

/-! ## `load_metadata` (Chip_Atlasmcp.py lines 108-131)

`pandas.read_csv` is abstracted as a read oracle indexed by the encoding
and separator arguments of the two call sites; `ReadResult.unicodeErr`
models a raised `UnicodeDecodeError`, `ReadResult.otherErr` any other
raised parsing exception.  The Python `try/except` structure is embedded
explicitly.  In particular an exception raised inside the
`except UnicodeDecodeError` handler is not caught by the sibling
`except Exception` clause, so it propagates out of `load_metadata`:
this is the `LoadOutcome.raised` outcome. -/

/-- The `encoding=` argument of a `pd.read_csv` call. -/
inductive PdEnc where
  | utf8
  | latin1
deriving DecidableEq, Repr

/-- The `sep=` argument of a `pd.read_csv` call: `"\t"`, `None`
(delimiter sniffing) or `","`. -/
inductive PdSep where
  | tab
  | sniff
  | comma
deriving DecidableEq, Repr

/-- A parsed table: named columns and positional rows of optional string
cells (`none` models a missing value / NaN). -/
structure Table where
  cols : List String
  rows : List (List (Option String))
deriving DecidableEq, Repr

/-- Outcome of one `pd.read_csv` call. -/
inductive ReadResult where
  | ok (t : Table)
  | unicodeErr
  | otherErr
deriving DecidableEq, Repr

/-- Outcome of `load_metadata`: a table, `None`, or an uncaught exception
escaping the function. -/
inductive LoadOutcome where
  | table (t : Table)
  | absent
  | raised
deriving DecidableEq, Repr

/-- Column trimming, `df.columns = [c.strip() for c in df.columns]`. -/
def trimTable (t : Table) : Table :=
  { cols := t.cols.map stripStr, rows := t.rows }

/-- The initial separator, `sep = "\t" if fpath.endswith(".tsv") else None`. -/
def initSep (isTsv : Bool) : PdSep :=
  if isTsv then PdSep.tab else PdSep.sniff

/-- The body of the `except UnicodeDecodeError` handler: read with
Latin-1 (same separator), retry with comma on a single-column result.
Any exception raised here escapes `load_metadata` (`raised`). -/
def latin1Retry (read : PdEnc → PdSep → ReadResult) (s0 : PdSep) : LoadOutcome :=
  match read PdEnc.latin1 s0 with
  | ReadResult.ok t1 =>
    if t1.cols.length = 1 then
      match read PdEnc.latin1 PdSep.comma with
      | ReadResult.ok t2 => LoadOutcome.table (trimTable t2)
      | _ => LoadOutcome.raised
    else LoadOutcome.table (trimTable t1)
  | _ => LoadOutcome.raised

/-- Embeds `load_metadata` after the `ensure_metadata_file` call: the
UTF-8 attempt (with single-column comma retry), the Latin-1 handler for a
`UnicodeDecodeError`, the broad `except Exception` returning `None`
(`absent`), and the final column trim. -/
def load_metadata (read : PdEnc → PdSep → ReadResult) (isTsv : Bool) : LoadOutcome :=
  match read PdEnc.utf8 (initSep isTsv) with
  | ReadResult.ok t1 =>
    if t1.cols.length = 1 then
      match read PdEnc.utf8 PdSep.comma with
      | ReadResult.ok t2 => LoadOutcome.table (trimTable t2)
      | ReadResult.unicodeErr => latin1Retry read (initSep isTsv)
      | ReadResult.otherErr => LoadOutcome.absent
    else LoadOutcome.table (trimTable t1)
  | ReadResult.unicodeErr => latin1Retry read (initSep isTsv)
  | ReadResult.otherErr => LoadOutcome.absent

/-- A file whose bytes are not valid UTF-8 (so the first read raises
`UnicodeDecodeError`) and whose Latin-1 parse raises a parser error
(Latin-1 decoding itself never fails, but e.g. ragged rows or an
unsniffable delimiter raise `pandas.errors.ParserError`). -/
def readUtf8FailLatin1Error : PdEnc → PdSep → ReadResult
  | PdEnc.utf8, _ => ReadResult.unicodeErr
  | PdEnc.latin1, _ => ReadResult.otherErr

/-- C3: a parse error during the Latin-1 retry escapes `load_metadata`
instead of yielding `None`: the `except Exception` clause does not catch
exceptions raised inside the `except UnicodeDecodeError` handler. -/
theorem load_latin1_error_raises :
    load_metadata readUtf8FailLatin1Error true = LoadOutcome.raised := rfl

/-- A non-UTF-8 file whose Latin-1 parse yields a single-column table and
whose Latin-1 comma retry raises a parser error. -/
def readLatin1RetryError : PdEnc → PdSep → ReadResult
  | PdEnc.utf8, _ => ReadResult.unicodeErr
  | PdEnc.latin1, PdSep.comma => ReadResult.otherErr
  | PdEnc.latin1, _ => ReadResult.ok ⟨["A"], [[Option.some "x"]]⟩

/-- C4 counterexample: a file that fails UTF-8 decoding and decodes fine
under Latin-1 (only the parse fails, here in the comma retry) makes
`load_metadata` raise, so it does not return a table. -/
theorem load_latin1_decode_only_counterexample :
    load_metadata readLatin1RetryError false = LoadOutcome.raised := rfl

/-- C4 (amended): if the first read raises `UnicodeDecodeError` and the
Latin-1 reads parse successfully (including the single-column comma retry
when it triggers), `load_metadata` returns the Latin-1 table with every
column name whitespace-trimmed. -/
theorem load_latin1_fallback (read : PdEnc → PdSep → ReadResult) (isTsv : Bool)
    (t1 t2 : Table)
    (h0 : read PdEnc.utf8 (initSep isTsv) = ReadResult.unicodeErr)
    (h1 : read PdEnc.latin1 (initSep isTsv) = ReadResult.ok t1)
    (h2 : t1.cols.length = 1 → read PdEnc.latin1 PdSep.comma = ReadResult.ok t2) :
    load_metadata read isTsv
      = LoadOutcome.table (trimTable (if t1.cols.length = 1 then t2 else t1))
    ∧ ∀ c ∈ (trimTable (if t1.cols.length = 1 then t2 else t1)).cols,
        stripStr c = c := by
  constructor
  · simp only [load_metadata, h0, latin1Retry, h1]
    by_cases hc : t1.cols.length = 1
    · simp [hc, h2 hc]
    · simp [hc]
  · intro c hc
    simp only [trimTable] at hc
    obtain ⟨c0, _, rfl⟩ := List.mem_map.mp hc
    exact stripStr_idem c0

/-- A non-UTF-8 single-column comma-separated file that loads under the
Latin-1 fallback. -/
def readLatin1Single : PdEnc → PdSep → ReadResult
  | PdEnc.utf8, _ => ReadResult.unicodeErr
  | PdEnc.latin1, PdSep.comma => ReadResult.ok ⟨["Antigen "], [[Option.some "TP53"]]⟩
  | PdEnc.latin1, _ => ReadResult.ok ⟨["raw"], [[Option.some "x"]]⟩

/-- Witness for `load_latin1_fallback`: the comma retry result is
returned with its column name trimmed. -/
theorem load_latin1_fallback_witness :
    load_metadata readLatin1Single false
      = LoadOutcome.table ⟨["Antigen"], [[Option.some "TP53"]]⟩ := by
  have h := load_latin1_fallback readLatin1Single false
    ⟨["raw"], [[Option.some "x"]]⟩ ⟨["Antigen "], [[Option.some "TP53"]]⟩
    rfl rfl (fun _ => rfl)
  rw [h.1]
  decide

/-- The raw header a real file with the header line `Antigen, Antigen`
produces: `read_csv` keeps the two distinct names. -/
def readDupCols : PdEnc → PdSep → ReadResult
  | _, _ => ReadResult.ok ⟨["Antigen", " Antigen"], []⟩

/-- C9 counterexample: trimming can merge column names that differ only
in surrounding whitespace, so a table returned by `load_metadata` can
have duplicate column names. -/
theorem load_dup_after_trim_counterexample :
    load_metadata readDupCols false = LoadOutcome.table ⟨["Antigen", "Antigen"], []⟩
    ∧ ¬ (["Antigen", "Antigen"] : List String).Nodup :=
  ⟨rfl, by decide⟩

lemma latin1Retry_table_shape (read : PdEnc → PdSep → ReadResult) (s0 : PdSep)
    (t : Table) (h : latin1Retry read s0 = LoadOutcome.table t) :
    ∃ s t0, read PdEnc.latin1 s = ReadResult.ok t0 ∧ t = trimTable t0 := by
  unfold latin1Retry at h
  split at h
  · rename_i t1 h1
    split at h
    · split at h
      · rename_i t2 h2
        injection h with h
        exact ⟨PdSep.comma, t2, h2, h.symm⟩
      · simp at h
    · injection h with h
      exact ⟨s0, t1, h1, h.symm⟩
  · simp at h

lemma load_table_shape (read : PdEnc → PdSep → ReadResult) (isTsv : Bool)
    (t : Table) (h : load_metadata read isTsv = LoadOutcome.table t) :
    ∃ e s t0, read e s = ReadResult.ok t0 ∧ t = trimTable t0 := by
  unfold load_metadata at h
  split at h
  · rename_i t1 h1
    split at h
    · split at h
      · rename_i t2 h2
        injection h with h
        exact ⟨PdEnc.utf8, PdSep.comma, t2, h2, h.symm⟩
      · obtain ⟨s, t0, h0, ht⟩ := latin1Retry_table_shape read _ t h
        exact ⟨PdEnc.latin1, s, t0, h0, ht⟩
      · simp at h
    · injection h with h
      exact ⟨PdEnc.utf8, initSep isTsv, t1, h1, h.symm⟩
  · obtain ⟨s, t0, h0, ht⟩ := latin1Retry_table_shape read _ t h
    exact ⟨PdEnc.latin1, s, t0, h0, ht⟩
  · simp at h

/-- C9 (amended): every table returned by `load_metadata` has
whitespace-trimmed column names, and its column names are pairwise
distinct provided the raw column names delivered by the reader remain
distinct after trimming. -/
theorem load_columns_trimmed (read : PdEnc → PdSep → ReadResult) (isTsv : Bool)
    (t : Table) (h : load_metadata read isTsv = LoadOutcome.table t) :
    (∀ c ∈ t.cols, stripStr c = c)
  ∧ ((∀ e s t0, read e s = ReadResult.ok t0 → (t0.cols.map stripStr).Nodup) →
      t.cols.Nodup) := by
  obtain ⟨e, s, t0, hread, ht⟩ := load_table_shape read isTsv t h
  subst ht
  constructor
  · intro c hc
    simp only [trimTable] at hc
    obtain ⟨c0, _, rfl⟩ := List.mem_map.mp hc
    exact stripStr_idem c0
  · intro hnd
    simpa [trimTable] using hnd e s t0 hread

/-- A well-behaved read oracle for the `load_columns_trimmed` witness. -/
def readW : PdEnc → PdSep → ReadResult
  | _, _ => ReadResult.ok ⟨[" Antigen", "Cell type"], []⟩

/-- Witness for `load_columns_trimmed` at a concrete oracle. -/
theorem load_columns_trimmed_witness :
    (∀ c ∈ (Table.mk ["Antigen", "Cell type"] []).cols, stripStr c = c)
    ∧ (Table.mk ["Antigen", "Cell type"] []).cols.Nodup := by
  have h := load_columns_trimmed readW true (Table.mk ["Antigen", "Cell type"] []) rfl
  refine ⟨h.1, h.2 ?_⟩
  intro e s t0 ht
  simp only [readW, ReadResult.ok.injEq] at ht
  subst ht
  decide

/-! ## Python regular expressions, as used by `str.contains`

`matches = df[df[col].astype(str).str.contains(keyword, case=False, na=False)]`
compiles `keyword` as a regular expression (`regex=True` is the pandas
default) with `re.IGNORECASE` and keeps the rows whose cell value
(`astype(str)` renders a missing value as the string `"nan"`) has a
regex search match.  The model covers the fragment of Python regex
syntax made of literal characters, `.`, `|`, `*`, `+`, `?` and
parenthesised groups; the remaining metacharacters (`\`, `[`, `]`,
`{`, `}`, `^`, `$`) are conservatively rejected by the parser, and no
claim is settled on them.  Matching is by Brzozowski derivatives with
case-insensitive character comparison. -/

inductive Regex where
  | fail
  | eps
  | chr (c : Char)
  | dot
  | cat (r1 r2 : Regex)
  | alt (r1 r2 : Regex)
  | star (r : Regex)
deriving DecidableEq, Repr

/-- Does the regex accept the empty string? -/
def nullable : Regex → Bool
  | Regex.fail => false
  | Regex.eps => true
  | Regex.chr _ => false
  | Regex.dot => false
  | Regex.cat r1 r2 => nullable r1 && nullable r2
  | Regex.alt r1 r2 => nullable r1 || nullable r2
  | Regex.star _ => true

/-- Brzozowski derivative with `re.IGNORECASE` character comparison
(modelled on the ASCII fragment, like the data handled here).  `dot` is
matched against every character; Python `.` does not match a newline
without `DOTALL`, so the theorems below use `dot` only against
newline-free values. -/
def derivCI (a : Char) : Regex → Regex
  | Regex.fail => Regex.fail
  | Regex.eps => Regex.fail
  | Regex.chr d => if d.toLower == a.toLower then Regex.eps else Regex.fail
  | Regex.dot => Regex.eps
  | Regex.cat r1 r2 =>
    if nullable r1 then Regex.alt (Regex.cat (derivCI a r1) r2) (derivCI a r2)
    else Regex.cat (derivCI a r1) r2
  | Regex.alt r1 r2 => Regex.alt (derivCI a r1) (derivCI a r2)
  | Regex.star r => Regex.cat (derivCI a r) (Regex.star r)

/-- Does some initial segment of `s` match `r` (like `re.match`)? -/
def matchHere : Regex → List Char → Bool
  | r, [] => nullable r
  | r, a :: s => nullable r || matchHere (derivCI a r) s

/-- Does `r` match somewhere inside `s` (like `re.search`)? -/
def rsearch : Regex → List Char → Bool
  | r, [] => nullable r
  | r, a :: s => matchHere r (a :: s) || rsearch r s

/-- The regex matching exactly the given literal character list. -/
def literalRe : List Char → Regex
  | [] => Regex.eps
  | c :: cs => Regex.cat (Regex.chr c) (literalRe cs)

/-- Python regex metacharacters. -/
def isMeta (c : Char) : Bool :=
  c == '\\' || c == '.' || c == '^' || c == '$' || c == '*' || c == '+' ||
  c == '?' || c == '\x7b' || c == '\x7d' || c == '[' || c == ']' ||
  c == '(' || c == ')' || c == '|'

mutual

def parseAtom : Nat → List Char → Except String (Regex × List Char)
  | 0, _ => Except.error "fuel exhausted"
  | _ + 1, [] => Except.error "nothing to repeat or empty pattern"
  | fuel + 1, c :: rest =>
    if c == '(' then
      match parseAlt fuel rest with
      | Except.ok (r, rest2) =>
        match rest2 with
        | ')' :: rest3 => Except.ok (r, rest3)
        | _ => Except.error "missing ), unterminated subpattern"
      | Except.error e => Except.error e
    else if c == '.' then Except.ok (Regex.dot, rest)
    else if isMeta c then Except.error "metacharacter not supported here"
    else Except.ok (Regex.chr c, rest)

def parseQuants : Nat → Regex → List Char → Except String (Regex × List Char)
  | 0, _, _ => Except.error "fuel exhausted"
  | _ + 1, r, [] => Except.ok (r, [])
  | fuel + 1, r, c :: rest =>
    if c == '*' then parseQuants fuel (Regex.star r) rest
    else if c == '+' then parseQuants fuel (Regex.cat r (Regex.star r)) rest
    else if c == '?' then parseQuants fuel (Regex.alt Regex.eps r) rest
    else Except.ok (r, c :: rest)

def parseFactor : Nat → List Char → Except String (Regex × List Char)
  | 0, _ => Except.error "fuel exhausted"
  | fuel + 1, s =>
    match parseAtom fuel s with
    | Except.ok (r, rest) => parseQuants fuel r rest
    | Except.error e => Except.error e

def parseCat : Nat → List Char → Except String (Regex × List Char)
  | 0, _ => Except.error "fuel exhausted"
  | _ + 1, [] => Except.ok (Regex.eps, [])
  | fuel + 1, c :: rest =>
    if c == '|' || c == ')' then Except.ok (Regex.eps, c :: rest)
    else
      match parseFactor fuel (c :: rest) with
      | Except.ok (r, rest2) =>
        match parseCat fuel rest2 with
        | Except.ok (r2, rest3) => Except.ok (Regex.cat r r2, rest3)
        | Except.error e => Except.error e
      | Except.error e => Except.error e

def parseAlt : Nat → List Char → Except String (Regex × List Char)
  | 0, _ => Except.error "fuel exhausted"
  | fuel + 1, s =>
    match parseCat fuel s with
    | Except.ok (r, rest) =>
      match rest with
      | '|' :: rest2 =>
        match parseAlt fuel rest2 with
        | Except.ok (r2, rest3) => Except.ok (Regex.alt r r2, rest3)
        | Except.error e => Except.error e
      | _ => Except.ok (r, rest)
    | Except.error e => Except.error e

end

/-- Compilation, `re.compile(pattern)`, on the supported fragment: parse the whole
pattern, rejecting leftover input (e.g. an unbalanced `)`). -/
def parseRegex (pat : String) : Except String Regex :=
  match parseAlt (2 * pat.data.length + 8) pat.data with
  | Except.ok (r, []) => Except.ok r
  | Except.ok (_, _ :: _) => Except.error "unbalanced parenthesis"
  | Except.error e => Except.error e

lemma matchHere_fail (s : List Char) : matchHere Regex.fail s = false := by
  induction s with
  | nil => rfl
  | cons a t ih => simp [matchHere, nullable, derivCI, ih]

lemma matchHere_cat_fail (r : Regex) (s : List Char) :
    matchHere (Regex.cat Regex.fail r) s = false := by
  induction s generalizing r with
  | nil => simp [matchHere, nullable]
  | cons a t ih => simp [matchHere, nullable, derivCI, ih]

lemma matchHere_alt (r1 r2 : Regex) (s : List Char) :
    matchHere (Regex.alt r1 r2) s = (matchHere r1 s || matchHere r2 s) := by
  induction s generalizing r1 r2 with
  | nil => simp [matchHere, nullable]
  | cons a t ih =>
    simp only [matchHere, nullable, derivCI, ih]
    cases nullable r1 <;> cases nullable r2 <;>
      simp [Bool.or_assoc, Bool.or_comm, Bool.or_left_comm]

lemma matchHere_cat_eps (r : Regex) (s : List Char) :
    matchHere (Regex.cat Regex.eps r) s = matchHere r s := by
  cases s with
  | nil => simp [matchHere, nullable]
  | cons a t =>
    simp only [matchHere, nullable, derivCI, Bool.true_and, if_true]
    rw [matchHere_alt, matchHere_cat_fail]
    simp

/-- Matching a literal regex from the start is a case-insensitive
initial-segment test. -/
lemma matchHere_literal (cs : List Char) (s : List Char) :
    matchHere (literalRe cs) s
      = startsSeg (cs.map Char.toLower) (s.map Char.toLower) := by
  induction cs generalizing s with
  | nil =>
    cases s with
    | nil => rfl
    | cons a t => simp [matchHere, literalRe, nullable, startsSeg]
  | cons c cs ih =>
    cases s with
    | nil => simp [matchHere, literalRe, nullable, startsSeg]
    | cons a t =>
      have hL : matchHere (literalRe (c :: cs)) (a :: t)
          = matchHere (derivCI a (Regex.cat (Regex.chr c) (literalRe cs))) t := by
        simp [literalRe, matchHere, nullable]
      rw [hL]
      by_cases hc : (c.toLower == a.toLower) = true
      · rw [show derivCI a (Regex.cat (Regex.chr c) (literalRe cs))
            = Regex.cat Regex.eps (literalRe cs) by simp [derivCI, nullable, hc]]
        rw [matchHere_cat_eps, ih]
        simp [startsSeg, hc]
      · have hc2 : (c.toLower == a.toLower) = false := by simpa using hc
        rw [show derivCI a (Regex.cat (Regex.chr c) (literalRe cs))
            = Regex.cat Regex.fail (literalRe cs) by simp [derivCI, nullable, hc2]]
        rw [matchHere_cat_fail]
        simp [startsSeg, hc2]

/-- Searching a literal regex is a case-insensitive substring test. -/
lemma rsearch_literal (cs s : List Char) :
    rsearch (literalRe cs) s
      = containsSeg (cs.map Char.toLower) (s.map Char.toLower) := by
  induction s with
  | nil =>
    cases cs with
    | nil => rfl
    | cons c cs2 => simp [rsearch, literalRe, nullable, containsSeg]
  | cons a t ih =>
    simp only [rsearch, containsSeg, List.map_cons]
    rw [matchHere_literal, ih]
    simp [List.map_cons]

lemma ne_of_not_meta {c x : Char} (h : isMeta c = false) (hx : isMeta x = true) :
    c ≠ x := by
  intro he
  subst he
  rw [h] at hx
  exact Bool.false_ne_true hx

lemma parseAtom_plain (fuel : Nat) (c : Char) (rest : List Char)
    (h : isMeta c = false) :
    parseAtom (fuel + 1) (c :: rest) = Except.ok (Regex.chr c, rest) := by
  have hp : c ≠ '(' := ne_of_not_meta h (by decide)
  have hd : c ≠ '.' := ne_of_not_meta h (by decide)
  simp [parseAtom, hp, hd, h]

lemma parseQuants_plain (fuel : Nat) (r : Regex) (s : List Char)
    (h : ∀ c ∈ s.head?, isMeta c = false) :
    parseQuants (fuel + 1) r s = Except.ok (r, s) := by
  cases s with
  | nil => rfl
  | cons c rest =>
    have hm : isMeta c = false := h c rfl
    have h1 : c ≠ '*' := ne_of_not_meta hm (by decide)
    have h2 : c ≠ '+' := ne_of_not_meta hm (by decide)
    have h3 : c ≠ '?' := ne_of_not_meta hm (by decide)
    simp [parseQuants, h1, h2, h3]

/-- One step of `parseCat` on a non-terminator head character. -/
lemma parseCat_cons_step (fuel : Nat) (c : Char) (cs : List Char) (r1 r2 : Regex)
    (h1 : c ≠ '|') (h2 : c ≠ ')')
    (hfac : parseFactor fuel (c :: cs) = Except.ok (r1, cs))
    (hrest : parseCat fuel cs = Except.ok (r2, [])) :
    parseCat (fuel + 1) (c :: cs) = Except.ok (Regex.cat r1 r2, []) := by
  simp [parseCat, h1, h2, hfac, hrest]

lemma parseCat_literal : ∀ (cs : List Char), (∀ c ∈ cs, isMeta c = false) →
    ∀ fuel, 2 * cs.length + 2 ≤ fuel →
    parseCat fuel cs = Except.ok (literalRe cs, []) := by
  intro cs
  induction cs with
  | nil =>
    intro _ fuel hf
    obtain ⟨f, rfl⟩ : ∃ f, fuel = f + 1 := ⟨fuel - 1, by omega⟩
    rfl
  | cons c cs ih =>
    intro h fuel hf
    simp only [List.length_cons] at hf
    obtain ⟨g2, rfl⟩ : ∃ g2, fuel = g2 + 1 + 1 + 1 := ⟨fuel - 3, by omega⟩
    have hm : isMeta c = false := h c (List.mem_cons_self c cs)
    have h1 : c ≠ '|' := ne_of_not_meta hm (by decide)
    have h2 : c ≠ ')' := ne_of_not_meta hm (by decide)
    have hq : parseQuants (g2 + 1) (Regex.chr c) cs = Except.ok (Regex.chr c, cs) := by
      refine parseQuants_plain g2 (Regex.chr c) cs ?_
      intro x hx
      cases cs with
      | nil => simp at hx
      | cons d rest =>
        have hxd : d = x := by simpa using hx
        subst hxd
        exact h d (by simp)
    have hfac : parseFactor (g2 + 1 + 1) (c :: cs) = Except.ok (Regex.chr c, cs) := by
      simp [parseFactor, parseAtom_plain g2 c cs hm, hq]
    have hrest : parseCat (g2 + 1 + 1) cs = Except.ok (literalRe cs, []) :=
      ih (fun x hx => h x (List.mem_cons_of_mem _ hx)) _ (by omega)
    exact parseCat_cons_step (g2 + 1 + 1) c cs _ _ h1 h2 hfac hrest

/-- One step of `parseAlt` when the whole input is one concatenation. -/
lemma parseAlt_of_parseCat (fuel : Nat) (s : List Char) (r : Regex)
    (h : parseCat fuel s = Except.ok (r, [])) :
    parseAlt (fuel + 1) s = Except.ok (r, []) := by
  simp [parseAlt, h]

/-- Compiling a pattern with no metacharacters yields its literal regex. -/
lemma parseRegex_literal (pat : String) (h : ∀ c ∈ pat.data, isMeta c = false) :
    parseRegex pat = Except.ok (literalRe pat.data) := by
  have hcat : parseCat (2 * pat.data.length + 7) pat.data
      = Except.ok (literalRe pat.data, []) :=
    parseCat_literal pat.data h _ (by omega)
  have halt := parseAlt_of_parseCat (2 * pat.data.length + 7) pat.data _ hcat
  have h8 : 2 * pat.data.length + 8 = (2 * pat.data.length + 7) + 1 := by omega
  unfold parseRegex
  rw [h8, halt]

/-! ## The keyword filter of `fetch_and_display` (Chip_Atlasmcp.py line 166) -/

/-- Stringification, `astype(str)`, of one cell: a missing value becomes the string
`"nan"`. -/
def cellAsStr : Option String → String
  | none => "nan"
  | some s => s

/-- The value of a positional row in column `i` (out-of-range reads as
missing). -/
def cellAt (row : List (Option String)) (i : Nat) : Option String :=
  row.getD i none

/-- Embeds
`df[df[col].astype(str).str.contains(keyword, case=False, na=False)]`.
First `df[col]`: when `col` is absent it raises a `KeyError`, and when
the label occurs more than once it returns a DataFrame, on which
`.astype(str).str` raises an `AttributeError` (the `.str` accessor
exists only on a Series); both exceptions escape `fetch_and_display`
and are modelled as `Except.error`.  With a unique label, `keyword` is
compiled as a regex (the pandas default `regex=True`) and the rows whose
stringified cell in that column has a case-insensitive search match are
kept; a compilation error is again an exception escaping
`fetch_and_display`. -/
def pandasFilterTable (t : Table) (col keyword : String) : Except String Table :=
  if t.cols.countP (fun c => c == col) = 0 then
    Except.error "KeyError: column not found"
  else if 2 ≤ t.cols.countP (fun c => c == col) then
    Except.error "AttributeError: str accessor on a DataFrame"
  else
    match parseRegex keyword with
    | Except.error e => Except.error e
    | Except.ok r =>
      Except.ok (Table.mk t.cols (t.rows.filter (fun row =>
        rsearch r (cellAsStr (cellAt row (t.cols.findIdx (fun c => c == col)))).data)))

/-- C2 counterexample: with keyword `"."` the filter keeps a row whose
cell value `"abc"` does not contain `"."` as a substring, because the
keyword is interpreted as a regular expression. -/
theorem filter_regex_counterexample :
    pandasFilterTable ⟨["Antigen"], [[Option.some "abc"]]⟩ "Antigen" "."
        = Except.ok ⟨["Antigen"], [[Option.some "abc"]]⟩
    ∧ containsSeg (lowerStr ".").data (lowerStr (cellAsStr (Option.some "abc"))).data
        = false :=
  ⟨rfl, rfl⟩

/-- A duplicated detected column label (reachable: trimming can merge
column names, see the C9 counterexample) makes line 166 raise: `df[col]`
is then a DataFrame and `.astype(str).str` has no `str` accessor. -/
theorem filter_duplicate_column_raises :
    pandasFilterTable
        (Table.mk ["Antigen", "Antigen"] [[Option.some "TP53", Option.some "x"]])
        "Antigen" "TP53"
      = Except.error "AttributeError: str accessor on a DataFrame" := rfl

/-- C2 (amended): for every table in which the detected column label
occurs exactly once and every keyword free of regex metacharacters, the
filter raises no error and returns exactly the rows whose stringified
cell value (a missing value reads as `"nan"`) contains the keyword as a
case-insensitive substring, in original row order. -/
theorem filter_literal_keyword (t : Table) (col keyword : String)
    (hcol : t.cols.countP (fun c => c == col) = 1)
    (hkw : ∀ c ∈ keyword.data, isMeta c = false) :
    pandasFilterTable t col keyword = Except.ok (Table.mk t.cols
      (t.rows.filter (fun row =>
        containsSeg (lowerStr keyword).data
          (lowerStr (cellAsStr (cellAt row (t.cols.findIdx (fun c => c == col))))).data))) := by
  unfold pandasFilterTable
  rw [hcol]
  rw [if_neg (by omega), if_neg (by omega)]
  rw [parseRegex_literal keyword hkw]
  refine congrArg Except.ok ?_
  refine congrArg (fun rs => Table.mk t.cols rs) ?_
  refine List.filter_congr ?_
  intro row _
  rw [rsearch_literal]
  rfl

/-- Witness for `filter_literal_keyword`: the spec example, keyword
`"TP53"` against antigens TP53, TP53BP1, BRCA1 and a missing value,
keeps exactly the first two rows in order. -/
theorem filter_literal_keyword_witness :
    pandasFilterTable
        ⟨["Antigen"], [[Option.some "TP53"], [Option.some "TP53BP1"],
                       [Option.some "BRCA1"], [Option.none]]⟩ "Antigen" "TP53"
      = Except.ok ⟨["Antigen"], [[Option.some "TP53"], [Option.some "TP53BP1"]]⟩ := by
  rw [filter_literal_keyword _ "Antigen" "TP53" (by decide) (by decide)]
  rfl

/-! ## Column detection of `fetch_and_display` (Chip_Atlasmcp.py lines 143-160) -/

/-- One step of picking the shorter of two strings, keeping the earlier
one on ties.  `sorted(possible_cols, key=len)[0]` is the head of a
stable sort by length, i.e. the earliest element of minimal length,
which is this fold. -/
def pickShorter (best x : String) : String :=
  if x.length < best.length then x else best

/-- The head `sorted(l, key=len)[0]` of a stable sort, for nonempty `l` (`none` on `[]`). -/
def selectShortest : List String → Option String
  | [] => none
  | c :: cs => some (cs.foldl pickShorter c)

/-- Embeds the smart column detection: first the loop looking for a
column whose stripped, lowered name is `"antigen"`; then the shortest
column name containing `"antigen"` case-insensitively; then the exact
name `"Cell type"`; else no column (`None`, so `fetch_and_display`
returns `None`). -/
def detectColumn (cols : List String) : Option String :=
  match cols.find? (fun c => lowerStr (stripStr c) == "antigen") with
  | some c => some c
  | none =>
    match selectShortest (cols.filter (fun c => containsSeg "antigen".data (lowerStr c).data)) with
    | some c => some c
    | none => if cols.contains "Cell type" then some "Cell type" else none

lemma foldl_pickShorter_spec : ∀ (xs : List String) (acc : String),
    ∃ l1 l2, acc :: xs = l1 ++ (xs.foldl pickShorter acc) :: l2
      ∧ (∀ d ∈ l1, (xs.foldl pickShorter acc).length < d.length)
      ∧ (∀ d ∈ acc :: xs, (xs.foldl pickShorter acc).length ≤ d.length) := by
  intro xs
  induction xs with
  | nil =>
    intro acc
    exact ⟨[], [], rfl, by simp, by simp⟩
  | cons x xs ih =>
    intro acc
    rcases ih (pickShorter acc x) with ⟨l1, l2, heq, hstrict, hle⟩
    rw [List.foldl_cons]
    set m := xs.foldl pickShorter (pickShorter acc x) with hm
    by_cases hx : x.length < acc.length
    · have hps : pickShorter acc x = x := if_pos hx
      rw [hps] at heq hle
      have hmx : m.length ≤ x.length := hle x (List.mem_cons_self x xs)
      cases l1 with
      | nil =>
        simp only [List.nil_append, List.cons.injEq] at heq
        obtain ⟨hmx2, hl2⟩ := heq
        refine ⟨[acc], l2, ?_, ?_, ?_⟩
        · simp only [List.singleton_append]
          rw [← hmx2, ← hl2]
        · intro d hd
          simp only [List.mem_singleton] at hd
          subst hd
          omega
        · intro d hd
          rcases List.mem_cons.mp hd with hda | hdt
          · subst hda; omega
          · exact hle d hdt
      | cons a l1t =>
        simp only [List.cons_append, List.cons.injEq] at heq
        obtain ⟨hax, hxs⟩ := heq
        have hma : m.length < a.length := hstrict a (List.mem_cons_self a l1t)
        refine ⟨acc :: a :: l1t, l2, ?_, ?_, ?_⟩
        · rw [List.cons_append, List.cons_append, ← hax, ← hxs]
        · intro d hd
          rcases List.mem_cons.mp hd with hda | hdr
          · subst hda; omega
          · exact hstrict d hdr
        · intro d hd
          rcases List.mem_cons.mp hd with hda | hdt
          · subst hda; omega
          · exact hle d hdt
    · have hps : pickShorter acc x = acc := if_neg hx
      rw [hps] at heq hle
      cases l1 with
      | nil =>
        simp only [List.nil_append, List.cons.injEq] at heq
        obtain ⟨hmacc, hl2⟩ := heq
        have hlen : acc.length = m.length := by rw [hmacc]
        refine ⟨[], x :: xs, ?_, by simp, ?_⟩
        · simp only [List.nil_append]
          rw [hmacc]
        · intro d hd
          rcases List.mem_cons.mp hd with hda | hdt
          · subst hda; omega
          · rcases List.mem_cons.mp hdt with hdx | hdxs
            · subst hdx; omega
            · exact hle d (List.mem_cons_of_mem _ hdxs)
      | cons a l1t =>
        simp only [List.cons_append, List.cons.injEq] at heq
        obtain ⟨hax, hxs⟩ := heq
        have hmacc : m.length < acc.length := by
          rw [hax]
          exact hstrict a (List.mem_cons_self a l1t)
        refine ⟨acc :: x :: l1t, l2, ?_, ?_, ?_⟩
        · rw [List.cons_append, List.cons_append, ← hxs]
        · intro d hd
          rcases List.mem_cons.mp hd with hda | hdr
          · subst hda
            exact hmacc
          · rcases List.mem_cons.mp hdr with hdx | hdl
            · subst hdx; omega
            · exact hstrict d (List.mem_cons_of_mem _ hdl)
        · intro d hd
          rcases List.mem_cons.mp hd with hda | hdt
          · subst hda; omega
          · rcases List.mem_cons.mp hdt with hdx | hdxs
            · subst hdx; omega
            · exact hle d (List.mem_cons_of_mem _ hdxs)

/-- The selected string is in the list, has minimal length, and every
element before it is strictly longer (the stable-sort tie-break). -/
lemma selectShortest_spec (l : List String) (c : String)
    (h : selectShortest l = some c) :
    ∃ l1 l2, l = l1 ++ c :: l2 ∧ (∀ d ∈ l1, c.length < d.length)
      ∧ (∀ d ∈ l, c.length ≤ d.length) := by
  cases l with
  | nil => simp [selectShortest] at h
  | cons a t =>
    simp only [selectShortest, Option.some.injEq] at h
    subst h
    exact foldl_pickShorter_spec t a

lemma find?_congr_local {α : Type} (p q : α → Bool) (l : List α)
    (h : ∀ a ∈ l, p a = q a) : l.find? p = l.find? q := by
  induction l with
  | nil => rfl
  | cons a t ih =>
    have ha := h a (List.mem_cons_self a t)
    have ih2 := ih (fun x hx => h x (List.mem_cons_of_mem _ hx))
    cases hq : q a <;> simp [List.find?_cons, ha, hq, ih2]

/-- C1: the column-detection priority of `fetch_and_display`, for tables
whose column names are trimmed (every table reaching the detection comes
from `load_metadata`, which trims the column names).
1. If some column name lowers to `"antigen"`, the first such column is
   selected.  2. Otherwise, if some column name contains `"antigen"`
   case-insensitively, a column with such a name of minimal length is
   selected, and every earlier candidate is strictly longer (the
   stable-sort tie-break).  3. Otherwise the column named exactly
   `"Cell type"` is selected when present, and detection fails
   otherwise.  4. In particular, on `["Antigen_x", "Antigen"]` detection
   picks `"Antigen"`. -/
theorem detect_column_priority (cols : List String)
    (htrim : ∀ c ∈ cols, stripStr c = c) :
    (∀ c, cols.find? (fun d => lowerStr d == "antigen") = some c →
        detectColumn cols = some c)
  ∧ ((∀ c ∈ cols, lowerStr c ≠ "antigen") →
      (cols.filter (fun d => containsSeg "antigen".data (lowerStr d).data)) ≠ [] →
      ∃ c l1 l2, detectColumn cols = some c
        ∧ cols.filter (fun d => containsSeg "antigen".data (lowerStr d).data)
            = l1 ++ c :: l2
        ∧ (∀ d ∈ l1, c.length < d.length)
        ∧ (∀ d ∈ cols.filter (fun d => containsSeg "antigen".data (lowerStr d).data),
            c.length ≤ d.length))
  ∧ ((∀ c ∈ cols, lowerStr c ≠ "antigen") →
      cols.filter (fun d => containsSeg "antigen".data (lowerStr d).data) = [] →
      detectColumn cols = if cols.contains "Cell type" then some "Cell type" else none)
  ∧ detectColumn ["Antigen_x", "Antigen"] = some "Antigen" := by
  have hpred : ∀ d ∈ cols,
      (lowerStr (stripStr d) == "antigen") = (lowerStr d == "antigen") := by
    intro d hd
    rw [htrim d hd]
  refine ⟨?_, ?_, ?_, by decide⟩
  · intro c hc
    unfold detectColumn
    rw [find?_congr_local _ _ _ hpred, hc]
  · intro hna hne
    have hq : cols.find? (fun d => lowerStr d == "antigen") = none := by
      rw [List.find?_eq_none]
      intro x hx
      simpa using hna x hx
    have hp : cols.find? (fun d => lowerStr (stripStr d) == "antigen") = none := by
      rw [find?_congr_local _ _ _ hpred]
      exact hq
    rcases hposs : cols.filter (fun d => containsSeg "antigen".data (lowerStr d).data)
      with _ | ⟨a, t⟩
    · exact absurd hposs hne
    · have hsel : selectShortest (a :: t) = some (t.foldl pickShorter a) := rfl
      obtain ⟨l1, l2, heq, hstrict, hle⟩ := selectShortest_spec (a :: t) _ hsel
      refine ⟨t.foldl pickShorter a, l1, l2, ?_, heq, hstrict, hle⟩
      unfold detectColumn
      rw [hp, hposs]
      rfl
  · intro hna hempty
    have hq : cols.find? (fun d => lowerStr d == "antigen") = none := by
      rw [List.find?_eq_none]
      intro x hx
      simpa using hna x hx
    have hp : cols.find? (fun d => lowerStr (stripStr d) == "antigen") = none := by
      rw [find?_congr_local _ _ _ hpred]
      exact hq
    unfold detectColumn
    rw [hp, hempty]
    rfl

/-- Witness for `detect_column_priority`: a case-insensitive exact match
wins over the `"Cell type"` fallback. -/
theorem detect_column_priority_witness :
    detectColumn ["Cell type", "ANTIGEN"] = some "ANTIGEN" :=
  (detect_column_priority ["Cell type", "ANTIGEN"] (by decide)).1 "ANTIGEN" (by decide)

/-! ## The persister: CSV writing and reloading
(Chip_Atlasmcp.py lines 184-191 and 199-216)

`to_csv(index=False)` writes the header line and one line per row,
comma-separated, each line ended by a newline; a missing value writes as
an empty field.  Reloading goes through the `load_metadata` parsing path:
the `.csv` name means `sep=None`, so the python engine sniffs the
delimiter with `csv.Sniffer` from the first line only (the header); the
read skips blank lines, retries with the comma on a single-column
result, and reads a field in the default NA set of `read_csv` back as a
missing value.  The model covers unquoted fields: the hypotheses of the
round-trip theorem restrict cells and column names to values free of the
delimiter, quote and line-break characters, where `to_csv` applies no
quoting and the sniffer takes no quote-based guess. -/

def results_dir : String := "~/Chip_Atlasmcp/results"

/-- Side effects that the persister can perform. -/
inductive SaveEffect where
  | mkdirResults
  | writeFile (path : String) (content : List Char)
deriving DecidableEq, Repr

/-- One cell as written by `to_csv`: a missing value writes as an empty
field. -/
def encodeCell : Option String → List Char
  | none => []
  | some s => s.data

/-- Interleave a separator (`str.join` style). -/
def joinWith (sep : Char) : List (List Char) → List Char
  | [] => []
  | [x] => x
  | x :: y :: rest => x ++ sep :: joinWith sep (y :: rest)

/-- One CSV line for a row. -/
def encodeRow (r : List (Option String)) : List Char :=
  joinWith ',' (r.map encodeCell)

/-- Writing, `df.to_csv(fpath, index=False)`: header line, then the rows, each
line terminated by a newline. -/
def csvEncodeTable (t : Table) : List Char :=
  joinWith '\n' (joinWith ',' (t.cols.map String.data) :: t.rows.map encodeRow) ++ ['\n']

def splitSegAux (sep : Char) : List Char → List Char → List (List Char)
  | [], acc => [acc.reverse]
  | c :: cs, acc =>
    if c == sep then acc.reverse :: splitSegAux sep cs []
    else splitSegAux sep cs (c :: acc)

/-- Split on a separator character. -/
def splitSeg (sep : Char) (s : List Char) : List (List Char) :=
  splitSegAux sep s []

/-- The default NA markers of `pandas.read_csv` (plus the empty field). -/
def defaultNAValues : List String :=
  ["", "#N/A", "#N/A N/A", "#NA", "-1.#IND", "-1.#QNAN", "-NaN", "-nan",
   "1.#IND", "1.#QNAN", "<NA>", "N/A", "NA", "NULL", "NaN", "None",
   "n/a", "nan", "null"]

/-- One field as read back by `read_csv` with `dtype=str`: a default NA
marker reads as a missing value. -/
def parseCell (cs : List Char) : Option String :=
  if defaultNAValues.any (fun na => na.data == cs) then none
  else some (String.mk cs)

/-- The preferred delimiters of `csv.Sniffer`, in order. -/
def preferredDelims : List Char := [',', '\t', ';', ' ', ':']

/-- The frequency-fallback of `csv.Sniffer._guess_delimiter` on a
one-line sample: when no preferred delimiter occurs, every character of
the line is a candidate with its frequency, and the sniffer returns the
maximum by frequency, ties broken towards the larger character. -/
def mostFrequent (line : List Char) : Char :=
  match line with
  | [] => ','
  | c :: cs => cs.foldl (fun best x =>
      if line.count best < line.count x then x
      else if line.count best = line.count x ∧ best < x then x else best) c

/-- `csv.Sniffer().sniff(line)` as called by the `read_csv` python
engine for `sep=None`: pandas sniffs the first line only.  On an
unquoted line every present character is a consistent candidate, so the
first preferred delimiter occurring in the line wins, and with no
preferred delimiter present the most frequent character of the line is
returned (the quote-based guess is not modelled: the round-trip
hypotheses keep quote characters out of the header). -/
def sniffDelimiter (line : List Char) : Char :=
  match preferredDelims.find? (fun d => line.any (fun c => c == d)) with
  | some d => d
  | none => mostFrequent line

/-- One `read_csv` pass at a given delimiter: first line is the header,
the rest are rows. -/
def tableFrom (d : Char) (header : List Char) (dataLines : List (List Char)) :
    Table :=
  Table.mk ((splitSeg d header).map String.mk)
    (dataLines.map (fun l => (splitSeg d l).map parseCell))

/-- Reloading a written results file through the loader parsing path:
split into lines and skip blank lines (`skip_blank_lines=True` is the
`read_csv` default; no lines at all models `EmptyDataError`), sniff the
delimiter from the header line (the `.csv` name means `sep=None`), retry
with the comma on a single-column result (the loader fallback), and trim
the column names. -/
def reload_model (content : List Char) : Option Table :=
  match (splitSeg '\n' content).filter (fun l => !l.isEmpty) with
  | [] => none
  | header :: dataLines =>
    if (tableFrom (sniffDelimiter header) header dataLines).cols.length = 1 then
      some (trimTable (tableFrom ',' header dataLines))
    else some (trimTable (tableFrom (sniffDelimiter header) header dataLines))

/-- Embeds `save_full_dataset(df, gene, metadata_type, silent)`: a `None`
or empty frame returns before `os.makedirs` and `to_csv`, so the
filesystem is untouched; otherwise the results directory is created and
the CSV written. -/
def save_full_dataset (df : Option Table) (gene metadata_type : String) :
    List SaveEffect :=
  match df with
  | none => []
  | some t =>
    if t.rows.isEmpty then []
    else [SaveEffect.mkdirResults,
          SaveEffect.writeFile
            (joinPath results_dir ("chip_atlas_" ++ gene ++ "_" ++ metadata_type ++ ".csv"))
            (csvEncodeTable t)]

/-- C7: with an absent or empty match set the persister performs no
side effect at all: no directory creation and no file write. -/
theorem save_noop_on_empty (gene metadata_type : String) (t : Table)
    (h : t.rows = []) :
    save_full_dataset none gene metadata_type = []
    ∧ save_full_dataset (some t) gene metadata_type = [] := by
  refine ⟨rfl, ?_⟩
  simp [save_full_dataset, h]

/-- Witness for `save_noop_on_empty` at the spec example keyword. -/
theorem save_noop_on_empty_witness :
    save_full_dataset none "XYZGENE" "experiment_list" = []
    ∧ save_full_dataset (some (Table.mk ["Antigen"] [])) "XYZGENE" "experiment_list"
        = [] :=
  save_noop_on_empty "XYZGENE" "experiment_list" (Table.mk ["Antigen"] []) rfl

lemma splitSegAux_no_sep (sep : Char) : ∀ (x acc : List Char),
    (∀ c ∈ x, (c == sep) = false) →
    splitSegAux sep x acc = [acc.reverse ++ x] := by
  intro x
  induction x with
  | nil =>
    intro acc _
    simp [splitSegAux]
  | cons c cs ih =>
    intro acc h
    have hc : (c == sep) = false := h c (List.mem_cons_self c cs)
    simp only [splitSegAux, hc, Bool.false_eq_true, if_false]
    rw [ih (c :: acc) (fun d hd => h d (List.mem_cons_of_mem _ hd))]
    simp

lemma splitSegAux_append_sep (sep : Char) : ∀ (x acc tail : List Char),
    (∀ c ∈ x, (c == sep) = false) →
    splitSegAux sep (x ++ sep :: tail) acc
      = (acc.reverse ++ x) :: splitSegAux sep tail [] := by
  intro x
  induction x with
  | nil =>
    intro acc tail _
    simp [splitSegAux]
  | cons c cs ih =>
    intro acc tail h
    have hc : (c == sep) = false := h c (List.mem_cons_self c cs)
    simp only [List.cons_append, splitSegAux, hc, Bool.false_eq_true, if_false]
    have := ih (c :: acc) tail (fun d hd => h d (List.mem_cons_of_mem _ hd))
    simpa using this

/-- Splitting undoes joining when no field contains the separator. -/
lemma splitSeg_joinWith (sep : Char) : ∀ (fields : List (List Char)),
    fields ≠ [] →
    (∀ f ∈ fields, ∀ c ∈ f, (c == sep) = false) →
    splitSeg sep (joinWith sep fields) = fields := by
  intro fields
  induction fields with
  | nil =>
    intro h _
    exact absurd rfl h
  | cons x rest ih =>
    intro _ h
    cases rest with
    | nil =>
      show splitSegAux sep (joinWith sep [x]) [] = [x]
      rw [show joinWith sep [x] = x from rfl]
      rw [splitSegAux_no_sep sep x [] (h x (List.mem_cons_self _ _))]
      simp
    | cons y rest2 =>
      show splitSegAux sep (joinWith sep (x :: y :: rest2)) [] = x :: y :: rest2
      rw [show joinWith sep (x :: y :: rest2) = x ++ sep :: joinWith sep (y :: rest2)
        from rfl]
      rw [splitSegAux_append_sep sep x [] _ (h x (List.mem_cons_self _ _))]
      rw [show splitSegAux sep (joinWith sep (y :: rest2)) []
          = splitSeg sep (joinWith sep (y :: rest2)) from rfl]
      rw [ih (by simp) (fun f hf => h f (List.mem_cons_of_mem _ hf))]
      simp

/-- A trailing separator is a trailing empty field. -/
lemma joinWith_append_nil (sep : Char) : ∀ (L : List (List Char)), L ≠ [] →
    joinWith sep (L ++ [[]]) = joinWith sep L ++ [sep] := by
  intro L
  induction L with
  | nil =>
    intro h
    exact absurd rfl h
  | cons x rest ih =>
    intro _
    cases rest with
    | nil => simp [joinWith]
    | cons y rest2 =>
      show joinWith sep (x :: (y :: rest2) ++ [[]]) = (x ++ sep :: joinWith sep (y :: rest2)) ++ [sep]
      rw [show joinWith sep (x :: (y :: rest2) ++ [[]])
          = x ++ sep :: joinWith sep ((y :: rest2) ++ [[]]) from rfl]
      rw [ih (by simp)]
      simp

/-- Every character of a join is the separator or from some field. -/
lemma mem_joinWith (sep : Char) : ∀ (L : List (List Char)) (c : Char),
    c ∈ joinWith sep L → c = sep ∨ ∃ x ∈ L, c ∈ x := by
  intro L
  induction L with
  | nil =>
    intro c hc
    simp [joinWith] at hc
  | cons x rest ih =>
    intro c hc
    cases rest with
    | nil =>
      refine Or.inr ⟨x, List.mem_cons_self _ _, ?_⟩
      simpa [joinWith] using hc
    | cons y rest2 =>
      rw [show joinWith sep (x :: y :: rest2) = x ++ sep :: joinWith sep (y :: rest2)
        from rfl] at hc
      rcases List.mem_append.mp hc with hx | hs
      · exact Or.inr ⟨x, List.mem_cons_self _ _, hx⟩
      · rcases List.mem_cons.mp hs with hceq | hj
        · exact Or.inl hceq
        · rcases ih c hj with hceq | ⟨z, hz, hcz⟩
          · exact Or.inl hceq
          · exact Or.inr ⟨z, List.mem_cons_of_mem _ hz, hcz⟩

/-- A written field reads back to the original cell when the cell value
is not a default NA marker. -/
lemma parseCell_encodeCell (v : Option String)
    (h : ∀ na ∈ defaultNAValues, v ≠ some na) :
    parseCell (encodeCell v) = v := by
  cases v with
  | none => rfl
  | some s =>
    show parseCell s.data = some s
    unfold parseCell
    have hna : (defaultNAValues.any (fun na => na.data == s.data)) = false := by
      rw [List.any_eq_false]
      intro na hna2 hEq
      have hnd : na.data = s.data := by simpa using hEq
      exact (h na hna2) (by rw [String.ext hnd])
    rw [hna]
    simp

lemma filter_nonempty_lines : ∀ (L : List (List Char)),
    (∀ l ∈ L, l ≠ []) →
    (L ++ [[]]).filter (fun l => !l.isEmpty) = L := by
  intro L
  induction L with
  | nil =>
    intro _
    rfl
  | cons x rest ih =>
    intro h
    have hx : x.isEmpty = false := by
      cases x with
      | nil => exact absurd rfl (h [] (List.mem_cons_self _ _))
      | cons a t => rfl
    rw [List.cons_append, List.filter_cons]
    simp only [hx, Bool.not_false, if_true]
    rw [ih (fun l hl => h l (List.mem_cons_of_mem _ hl))]

lemma map_eq_self_of {α : Type} (f : α → α) : ∀ (l : List α),
    (∀ a ∈ l, f a = a) → l.map f = l := by
  intro l
  induction l with
  | nil =>
    intro _
    rfl
  | cons a t ih =>
    intro h
    rw [List.map_cons, h a (List.mem_cons_self a t),
      ih (fun x hx => h x (List.mem_cons_of_mem _ hx))]

lemma map_mk_data : ∀ (l : List String), l.map (fun s => String.mk s.data) = l :=
  fun l => map_eq_self_of _ l (fun _ _ => rfl)

/-- The separator occurs in a join of at least two fields. -/
lemma any_comma_joinWith (x y : List Char) (rest : List (List Char)) :
    (joinWith ',' (x :: y :: rest)).any (fun c => c == ',') = true := by
  rw [show joinWith ',' (x :: y :: rest) = x ++ ',' :: joinWith ',' (y :: rest)
    from rfl]
  simp

/-- A line containing a comma sniffs to the comma: the comma heads the
preferred-delimiter list of `csv.Sniffer`. -/
lemma sniffDelimiter_of_comma (line : List Char)
    (h : line.any (fun c => c == ',') = true) :
    sniffDelimiter line = ',' := by
  simp [sniffDelimiter, preferredDelims, List.find?_cons, h]

/-- C8 (amended): a non-empty rectangular match set with at least two
columns, whose column names and cell values are plain (no delimiter,
quote or line-break characters, no cell value in the default NA set of
the reader), reloads to exactly the same row values; only the header is
reformatted (trimmed).  With at least two columns the header line
contains a comma, so the delimiter sniff of the reload provably picks
the comma; a single-column match set is excluded, since its comma-free
header makes the sniffer fall back to a header character, mangling the
reload. -/
theorem roundtrip_plain (t : Table)
    (hrows : t.rows ≠ [])
    (hcols2 : 2 ≤ t.cols.length)
    (hcolplain : ∀ c ∈ t.cols, c ≠ "" ∧ ∀ ch ∈ c.data,
        (ch == ',') = false ∧ (ch == '\n') = false ∧ (ch == '\r') = false
        ∧ (ch == '"') = false ∧ (ch == '\x27') = false)
    (hcellNA : ∀ r ∈ t.rows, ∀ v ∈ r, ∀ na ∈ defaultNAValues, v ≠ some na)
    (hcellchars : ∀ r ∈ t.rows, ∀ v ∈ r, ∀ ch ∈ encodeCell v,
        (ch == ',') = false ∧ (ch == '\n') = false ∧ (ch == '\r') = false
        ∧ (ch == '"') = false)
    (harity : ∀ r ∈ t.rows, r.length = t.cols.length) :
    reload_model (csvEncodeTable t) = some (Table.mk (t.cols.map stripStr) t.rows) := by
  have hcols : t.cols ≠ [] := by
    intro h0
    rw [h0] at hcols2
    simp at hcols2
  have hnoblank : ∀ r ∈ t.rows, encodeRow r ≠ [] := by
    intro r hr
    have hlen := harity r hr
    rcases r with _ | ⟨v1, r2⟩
    · simp at hlen
      omega
    · rcases r2 with _ | ⟨v2, r3⟩
      · simp at hlen
        omega
      · show joinWith ',' ((v1 :: v2 :: r3).map encodeCell) ≠ []
        simp only [List.map_cons]
        rw [show joinWith ',' (encodeCell v1 :: encodeCell v2 :: List.map encodeCell r3)
            = encodeCell v1 ++ ',' :: joinWith ',' (encodeCell v2 :: List.map encodeCell r3)
          from rfl]
        intro hd
        rcases List.append_eq_nil.mp hd with ⟨_, h2⟩
        simp at h2
  have hHdrNoNl : ∀ c ∈ joinWith ',' (t.cols.map String.data), (c == '\n') = false := by
    intro c hc
    rcases mem_joinWith ',' _ c hc with hceq | ⟨x, hx, hcx⟩
    · subst hceq
      rfl
    · obtain ⟨col, hcol, rfl⟩ := List.mem_map.mp hx
      exact ((hcolplain col hcol).2 c hcx).2.1
  have hRowNoNl : ∀ r ∈ t.rows, ∀ c ∈ encodeRow r, (c == '\n') = false := by
    intro r hr c hc
    simp only [encodeRow] at hc
    rcases mem_joinWith ',' _ c hc with hceq | ⟨x, hx, hcx⟩
    · subst hceq
      rfl
    · obtain ⟨v, hv, rfl⟩ := List.mem_map.mp hx
      exact (hcellchars r hr v hv c hcx).2.1
  have hneHdr : joinWith ',' (t.cols.map String.data) ≠ [] := by
    rcases hcl : t.cols with _ | ⟨c0, cs⟩
    · exact absurd hcl hcols
    · have hc0 : c0 ≠ "" :=
        (hcolplain c0 (by rw [hcl]; exact List.mem_cons_self _ _)).1
      cases cs with
      | nil =>
        simp only [List.map_cons, List.map_nil]
        rw [show joinWith ',' [c0.data] = c0.data from rfl]
        intro hd
        exact hc0 (String.ext hd)
      | cons c1 cs2 =>
        simp only [List.map_cons]
        rw [show joinWith ',' (c0.data :: c1.data :: List.map String.data cs2)
            = c0.data ++ ',' :: joinWith ',' (c1.data :: List.map String.data cs2)
          from rfl]
        intro hd
        rcases List.append_eq_nil.mp hd with ⟨_, h2⟩
        simp at h2
  have hsplit : splitSeg '\n' (csvEncodeTable t)
      = (joinWith ',' (t.cols.map String.data) :: t.rows.map encodeRow) ++ [[]] := by
    rw [show csvEncodeTable t
        = joinWith '\n' (joinWith ',' (t.cols.map String.data) :: t.rows.map encodeRow)
          ++ ['\n'] from rfl]
    rw [← joinWith_append_nil '\n' _ (by simp)]
    refine splitSeg_joinWith '\n' _ (by simp) ?_
    intro f hf c hc
    rcases List.mem_append.mp hf with hf1 | hf2
    · rcases List.mem_cons.mp hf1 with hfh | hfr
      · subst hfh
        exact hHdrNoNl c hc
      · obtain ⟨r, hr, rfl⟩ := List.mem_map.mp hfr
        exact hRowNoNl r hr c hc
    · have hfe : f = [] := by simpa using hf2
      subst hfe
      simp at hc
  have hfilter : ((joinWith ',' (t.cols.map String.data) :: t.rows.map encodeRow)
        ++ [[]]).filter (fun l => !l.isEmpty)
      = joinWith ',' (t.cols.map String.data) :: t.rows.map encodeRow := by
    refine filter_nonempty_lines _ ?_
    intro l hl
    rcases List.mem_cons.mp hl with hlh | hlr
    · subst hlh
      exact hneHdr
    · obtain ⟨r, hr, rfl⟩ := List.mem_map.mp hlr
      exact hnoblank r hr
  have hcommafree : ∀ f ∈ t.cols.map String.data, ∀ c ∈ f, (c == ',') = false := by
    intro f hf c hc
    obtain ⟨col, hcol, rfl⟩ := List.mem_map.mp hf
    exact ((hcolplain col hcol).2 c hc).1
  have hhdrp : (splitSeg ',' (joinWith ',' (t.cols.map String.data))).map String.mk
      = t.cols := by
    rw [splitSeg_joinWith ',' _ (by simpa using hcols) hcommafree]
    rw [List.map_map]
    exact map_eq_self_of _ t.cols (fun c _ => rfl)
  have hrowp : ∀ r ∈ t.rows, (splitSeg ',' (encodeRow r)).map parseCell = r := by
    intro r hr
    have hrne : r ≠ [] := by
      intro h0
      exact hnoblank r hr (by rw [h0]; rfl)
    have hcf : ∀ f ∈ r.map encodeCell, ∀ c ∈ f, (c == ',') = false := by
      intro f hf c hc
      obtain ⟨v, hv, rfl⟩ := List.mem_map.mp hf
      exact (hcellchars r hr v hv c hc).1
    rw [show encodeRow r = joinWith ',' (r.map encodeCell) from rfl]
    rw [splitSeg_joinWith ',' _ (by simpa using hrne) hcf]
    rw [List.map_map]
    refine map_eq_self_of _ r ?_
    intro v hv
    exact parseCell_encodeCell v (hcellNA r hr v hv)
  have hsniff : sniffDelimiter (joinWith ',' (t.cols.map String.data)) = ',' := by
    rcases hcl : t.cols with _ | ⟨c0, cs⟩
    · rw [hcl] at hcols2
      simp at hcols2
    · rcases cs with _ | ⟨c1, cs2⟩
      · rw [hcl] at hcols2
        simp at hcols2
      · refine sniffDelimiter_of_comma _ ?_
        simp only [List.map_cons]
        exact any_comma_joinWith c0.data c1.data (List.map String.data cs2)
  have hT : tableFrom ',' (joinWith ',' (t.cols.map String.data)) (t.rows.map encodeRow)
      = Table.mk t.cols t.rows := by
    unfold tableFrom
    rw [hhdrp, List.map_map]
    refine congrArg (Table.mk t.cols) ?_
    exact map_eq_self_of _ t.rows (fun r hr => hrowp r hr)
  unfold reload_model
  rw [hsplit, hfilter]
  show (if (tableFrom (sniffDelimiter (joinWith ',' (t.cols.map String.data)))
          (joinWith ',' (t.cols.map String.data)) (t.rows.map encodeRow)).cols.length = 1
      then some (trimTable (tableFrom ',' (joinWith ',' (t.cols.map String.data))
          (t.rows.map encodeRow)))
      else some (trimTable (tableFrom (sniffDelimiter (joinWith ',' (t.cols.map String.data)))
          (joinWith ',' (t.cols.map String.data)) (t.rows.map encodeRow))))
    = some (Table.mk (t.cols.map stripStr) t.rows)
  rw [hsniff, hT]
  rw [if_neg (show ¬((Table.mk t.cols t.rows).cols.length = 1) from by
    show ¬(t.cols.length = 1)
    omega)]
  rfl

/-- C8 counterexample: a match set with the cell value `"NA"` does not
round trip: the reader turns the written field back into a missing
value (the table has two columns, so the reload delimiter is the
comma and the failure is purely the NA translation). -/
theorem roundtrip_na_counterexample :
    reload_model (csvEncodeTable (Table.mk ["Antigen", "Genome assembly"]
        [[Option.some "NA", Option.some "hg19"]]))
      = some (Table.mk ["Antigen", "Genome assembly"]
          [[Option.none, Option.some "hg19"]])
    ∧ [[(Option.none : Option String), Option.some "hg19"]]
        ≠ [[Option.some "NA", Option.some "hg19"]] :=
  ⟨rfl, by decide⟩

/-- A single-column match set does not reload faithfully even with
plain values: the sniff runs on the comma-free header `Antigen` and
returns its most frequent character `n`, so the reload splits on `n`
and mangles the header into three columns. -/
theorem reload_single_column_mangled :
    reload_model (csvEncodeTable (Table.mk ["Antigen"] [[Option.some "TP53"]]))
      = some (Table.mk ["A", "tige", ""] [[Option.some "TP53"]]) := rfl

/-- Witness for `roundtrip_plain` at a two-column match set with a
missing value. -/
theorem roundtrip_plain_witness :
    reload_model (csvEncodeTable (Table.mk ["Antigen", "Genome assembly"]
        [[Option.some "TP53", Option.some "hg19"],
         [Option.none, Option.some "hg38"]]))
      = some (Table.mk ["Antigen", "Genome assembly"]
          [[Option.some "TP53", Option.some "hg19"],
           [Option.none, Option.some "hg38"]]) := by
  have h := roundtrip_plain (Table.mk ["Antigen", "Genome assembly"]
      [[Option.some "TP53", Option.some "hg19"],
       [Option.none, Option.some "hg38"]])
    (by decide) (by decide) (by decide) (by decide) (by decide) (by decide)
  rw [h]
  rfl

/-! ## `fetch_and_display` (Chip_Atlasmcp.py lines 137-193) -/

/-- Outcome of `fetch_and_display`: either an uncaught exception, or the
returned value (`None` or the match set) together with the filesystem
side effects of the save step. -/
inductive FetchOutcome where
  | raised
  | result (ms : Option Table) (effs : List SaveEffect)
deriving DecidableEq, Repr

/-- The composition of `load_metadata` with its `ensure_metadata_file` call: the file
path decides the separator (`.tsv` versus sniffing). -/
def load_metadata_full (fsHas : String → Bool) (net : Option (String → Bool))
    (read : PdEnc → PdSep → ReadResult) (metadata_type : String) : LoadOutcome :=
  match (ensure_metadata_file metadata_type fsHas net).1 with
  | none => LoadOutcome.absent
  | some p => load_metadata read (p.endsWith ".tsv")

/-- Embeds `fetch_and_display(metadata_type, keyword, column_hint,
silent)`: load, detect the column, filter by the keyword, and save the
matches (`matches.to_csv(fpath, index=False)`) unless empty.  The
`column_hint` parameter is part of the signature but is never read by
the body, exactly as in the source; `silent` only controls console
output, which is not part of the outcome. -/
def fetch_and_display (fsHas : String → Bool) (net : Option (String → Bool))
    (read : PdEnc → PdSep → ReadResult)
    (metadata_type keyword column_hint : String) (silent : Bool) : FetchOutcome :=
  match load_metadata_full fsHas net read metadata_type with
  | LoadOutcome.raised => FetchOutcome.raised
  | LoadOutcome.absent => FetchOutcome.result none []
  | LoadOutcome.table df =>
    match detectColumn df.cols with
    | none => FetchOutcome.result none []
    | some col =>
      match pandasFilterTable df col keyword with
      | Except.error _ => FetchOutcome.raised
      | Except.ok ms =>
        if ms.rows.isEmpty then FetchOutcome.result none []
        else FetchOutcome.result (some ms)
          [SaveEffect.mkdirResults,
           SaveEffect.writeFile
             (joinPath results_dir
               ("chip_atlas_" ++ keyword ++ "_" ++ metadata_type ++ ".csv"))
             (csvEncodeTable ms)]

/-- C10: the `column_hint` argument of `fetch_and_display` never
influences the outcome — column detection, filtering and the saved
output are identical for any two hint values (the parameter is unused by
the body). -/
theorem fetch_hint_no_influence (fsHas : String → Bool)
    (net : Option (String → Bool)) (read : PdEnc → PdSep → ReadResult)
    (metadata_type keyword hint1 hint2 : String) (silent : Bool) :
    fetch_and_display fsHas net read metadata_type keyword hint1 silent
      = fetch_and_display fsHas net read metadata_type keyword hint2 silent := rfl

end ChipAtlas
